import Mathlib

/-!
Shallow embedding of `siobg.py`: the reactive Nightscout bridge.  Python
dicts are modelled as insertion-ordered association lists, Python floats as
rationals, fallible field accesses (`d[k]`) as `Except`, and defaulting
accesses (`d.get(k)`) as `Option`.  Time (`time.time()`) is passed in
explicitly as a parameter `now`.
-/

namespace Siobg

/-! ## Python dict model (insertion-ordered association list) -/

/-- Python `d[k]` lookup returning `none` when the key is absent. -/
def dictLookup {κ α : Type} [DecidableEq κ] (m : List (κ × α)) (k : κ) : Option α :=
  match m with
  | [] => none
  | (k', v) :: rest => if k' = k then some v else dictLookup rest k

/-- Python `d[k] = v`: replace in place when the key exists, else append
(Python dicts preserve insertion order). -/
def dictInsert {κ α : Type} [DecidableEq κ] (m : List (κ × α)) (k : κ) (v : α) :
    List (κ × α) :=
  match m with
  | [] => [(k, v)]
  | (k', v') :: rest =>
    if k' = k then (k, v) :: rest else (k', v') :: dictInsert rest k v

/-- Python `del d[k]` with `except KeyError: pass` semantics: removing an absent
key is a no-op. -/
def dictErase {κ α : Type} [DecidableEq κ] (m : List (κ × α)) (k : κ) : List (κ × α) :=
  match m with
  | [] => []
  | (k', v') :: rest => if k' = k then rest else (k', v') :: dictErase rest k

/-- Python `d.values()` in insertion order. -/
def dictValues {κ α : Type} (m : List (κ × α)) : List α :=
  m.map Prod.snd

/-- The constant `MILLIS_PER_SECOND = 1000.` -/
def MILLIS_PER_SECOND : ℚ := 1000

/-- The helper `timestamp_hours_ago(hours)`: literally `time() - hours * 60 * 60 *
MILLIS_PER_SECOND`, with `time()` made explicit as `now` (seconds). -/
def timestamp_hours_ago (now hours : ℚ) : ℚ :=
  now - hours * 60 * 60 * MILLIS_PER_SECOND

/-! ## The `throttle` decorator

`throttled.t` and `throttled.executed` are function attributes that start
unset; accessing an unset one raises `AttributeError`, caught by the
`except` clause which runs `call_it()` immediately.  `throttled.t` is
`none` when the attribute was never assigned, `some none` when it holds a
cancelled or already-fired timer, and `some (some f)` when it holds a
timer pending to fire at time `f`. -/

structure ThrottleState where
  t : Option (Option ℚ)
  executed : Option ℚ
deriving DecidableEq, Repr

def ThrottleState.initial : ThrottleState := ⟨none, none⟩

/-- One invocation of the wrapped function at time `now`: returns the new
state and whether the wrapped action executed immediately.  Mirrors the
`try: throttled.t.cancel(); if time() < throttled.executed + wait: ...
except AttributeError: call_it()` body. -/
def throttled_call (wait : ℚ) (s : ThrottleState) (now : ℚ) : ThrottleState × Bool :=
  match s.t with
  | none => (⟨s.t, some now⟩, true)
  | some _ =>
    match s.executed with
    | none => (⟨some none, some now⟩, true)
    | some ex =>
      if now < ex + wait then (⟨some (some (now + wait)), some ex⟩, false)
      else (⟨some none, some ex⟩, false)

/-- Fire a pending timer whose deadline has passed: executes the wrapped
action (`call_it`) and records `executed`. -/
def throttle_fire (s : ThrottleState) (now : ℚ) : ThrottleState × Nat :=
  match s.t with
  | some (some f) => if f ≤ now then (⟨some none, some f⟩, 1) else (s, 0)
  | _ => (s, 0)

/-- Total number of executions of the wrapped action over a run: at each
invocation time any due timer fires first, then the call itself is
processed; a timer still pending after the last invocation fires
eventually and is counted. -/
def throttle_run (wait : ℚ) (s : ThrottleState) : List ℚ → Nat
  | [] => match s.t with | some (some _) => 1 | _ => 0
  | now :: rest =>
    let fired := throttle_fire s now
    let called := throttled_call wait fired.1 now
    fired.2 + (if called.2 then 1 else 0) + throttle_run wait called.1 rest

/-! ## Liveness supervisor (`main` loop and `wait_count`) -/

/-- One polling cycle: an inbound event during the cycle resets
`wait_count` to 0 (`on_dataUpdate`), and the loop unconditionally adds 1
at the end of the cycle (`wait_count += 1`). -/
def liveness_step (counter : Nat) (event : Bool) : Nat :=
  (if event then 0 else counter) + 1

/-- The `while wait_count < 7` loop: given the counter and the sequence of
cycles (`true` = an inbound event arrived during that cycle), returns
`some n` when the loop exits after consuming `n` cycles, `none` when the
supplied cycles run out before the threshold check fails. -/
def liveness_cycles_to_exit (counter : Nat) : List Bool → Option Nat
  | [] => if 7 ≤ counter then some 0 else none
  | c :: rest =>
    if 7 ≤ counter then some 0
    else (liveness_cycles_to_exit (liveness_step counter c) rest).map (· + 1)

/-- Handler `on_disconnect`: `wait_count += 8` then `sys.exit()`.  Result is the
new counter and whether the handler terminates the process. -/
def on_disconnect (wait_count : Nat) : Nat × Bool :=
  (wait_count + 8, true)

/-- Handler `on_error`: prints and calls `sys.exit()` without touching
`wait_count`. -/
def on_error (wait_count : Nat) : Nat × Bool :=
  (wait_count, true)

/-! ## Shared small helpers -/

/-- Access `d[k]` on an optional field: raises `KeyError` when absent. -/
def getKey {α : Type} (o : Option α) (msg : String) : Except String α :=
  match o with
  | some a => Except.ok a
  | none => Except.error msg

/-- Stable insertion into a list sorted by the total preorder `le`: a new
element goes after existing elements that tie with it. -/
def stableInsert {α : Type} (le : α → α → Bool) (a : α) : List α → List α
  | [] => [a]
  | b :: bs => if le a b && !le b a then a :: b :: bs else b :: stableInsert le a bs

/-- Python's `list.sort` is stable; over a total preorder any stable sort
computes the same list, so insertion sort models it. -/
def pySortBy {α : Type} (le : α → α → Bool) (l : List α) : List α :=
  l.foldl (fun acc a => stableInsert le a acc) []

/-- Python-2 `≤` on a sort key that may be `None`: `None` compares below
every number. -/
def pyLeOpt (a b : Option ℚ) : Bool :=
  match a, b with
  | none, _ => true
  | some _, none => false
  | some x, some y => x ≤ y

/-- Python-2 `m >= cutoff` where `m` may be `None` (`None` is below every
number, so the comparison is false). -/
def pyGeCutoff (m : Option ℚ) (cutoff : ℚ) : Bool :=
  match m with
  | some q => cutoff ≤ q
  | none => false

/-- Python truthiness of an optional numeric field: `None` and `0` are
falsy. -/
def pyTruthyNum (m : Option ℚ) : Bool :=
  match m with
  | some q => q != 0
  | none => false

/-- Python `needle in haystack` for strings. -/
def pyInStr (needle hay : String) : Bool :=
  1 < (hay.splitOn needle).length

/-! ## Treatment store (`websocket_treatments`)

A cloud treatment record, with the fields the code reads.  Optional
fields model `.get` accesses; `Except`-raising accesses keep `KeyError`
behaviour explicit.  Timestamps and numeric fields are rationals. -/

structure Treatment where
  eventType : Option String
  timestamp : Option ℚ
  created_at : Option ℚ
  _id : Option String
  action : Option String
  carbs : Option ℚ
  insulin : Option ℚ
  mills : Option ℚ
deriving DecidableEq, Repr

/-- The key timestamp `treatment.get('timestamp', treatment.get('created_at', None))`. -/
def tsKey (t : Treatment) : Option ℚ :=
  t.timestamp <|> t.created_at

/-- Store key: `(treatment['eventType'], timestamp-or-created_at)`. -/
abbrev TKey : Type := String × Option ℚ

abbrev TreatmentStore : Type := List (TKey × Treatment)

/-- One step of the comprehension `[v for v in values if v['_id'] ==
treatment['_id']]`: the stored record's `_id` access raises when
absent. -/
def collect_step (remId : String) (acc : List Treatment) (v : Treatment) :
    Except String (List Treatment) := do
  let vid ← getKey v._id "KeyError: _id"
  pure (if vid = remId then acc ++ [v] else acc)

/-- The stored treatments whose `_id` matches the remove record's. -/
def collect_removed (remId : String) (vals : List Treatment) :
    Except String (List Treatment) :=
  vals.foldlM (collect_step remId) []

/-- One `del` of the remove loop: the deletion key pairs the *stored*
record's `eventType` with `ts`, the *remove record's*
timestamp-or-created_at; `except KeyError: pass` makes a miss a no-op
(`dictErase`). -/
def erase_step (ts : Option ℚ) (s2 : TreatmentStore) (r : Treatment) :
    Except String TreatmentStore := do
  let et ← getKey r.eventType "KeyError: eventType"
  pure (dictErase s2 (et, ts))

def erase_removed (ts : Option ℚ) (removed : List Treatment)
    (s : TreatmentStore) : Except String TreatmentStore :=
  removed.foldlM (erase_step ts) s

/-- The body of `handle_treatments`'s loop for one inbound treatment.
The `action` guard `treatment.get('action', None) and treatment['action']
== 'remove'` is `t.action = some "remove"` (the truthiness conjunct is
redundant since the empty string is not `"remove"`). -/
def handle_one_treatment (s : TreatmentStore) (t : Treatment) :
    Except String TreatmentStore :=
  if t.action = some "remove" then do
    let remId ← getKey t._id "KeyError: _id"
    let removed ← collect_removed remId (dictValues s)
    erase_removed (tsKey t) removed s
  else do
    let et ← getKey t.eventType "KeyError: eventType"
    pure (dictInsert s (et, tsKey t) t)

/-- Loop `handle_treatments` over the `data['treatments']` batch (store
update only; the trailing `handle_temp_targets` / `handle_meal_carbs`
calls are modelled separately below). -/
def handle_treatments (s : TreatmentStore) (batch : List Treatment) :
    Except String TreatmentStore :=
  batch.foldlM handle_one_treatment s

/-! ## Derived views and persistence -/

/-- Persistence `write_treatment_json(filename, treatments)`: no write when the list
is empty; otherwise the JSON content plus the modification time
`treatments[0]['mills'] / MILLIS_PER_SECOND` (modelled as `none` when the
head has no `mills`, where the source would raise `KeyError`; every call
site filters on `mills` first). -/
def write_treatment_json (ts : List Treatment) :
    Option (List Treatment × Option ℚ) :=
  match ts with
  | [] => none
  | t :: _ => some (ts, t.mills.map (fun m => m / MILLIS_PER_SECOND))

/-- The filtered, reverse-chronological meal-carbs view built inside
`handle_meal_carbs`. -/
def compute_meal_carbs (s : TreatmentStore) (now : ℚ) : List Treatment :=
  pySortBy (fun a b => pyLeOpt b.mills a.mills)
    ((dictValues s).filter
      (fun t => (pyTruthyNum t.carbs || pyTruthyNum t.insulin) &&
        pyGeCutoff t.mills (timestamp_hours_ago now 24)))

/-- View handler `handle_meal_carbs`: recompute the view, and when it differs from the
cached `websocket_meal_carbs`, replace the cache and write
`monitor/carbhistory.json`.  Returns the new cache and the optional write
effect. -/
def handle_meal_carbs (s : TreatmentStore) (cache : List Treatment) (now : ℚ) :
    List Treatment × Option (List Treatment × Option ℚ) :=
  let new := compute_meal_carbs s now
  if cache ≠ new then (new, write_treatment_json new) else (cache, none)

/-- The filtered, reverse-chronological temp-targets view built inside
`handle_temp_targets` (`'Target' in treatment.get('eventType', '')`,
6-hour cutoff). -/
def compute_temp_targets (s : TreatmentStore) (now : ℚ) : List Treatment :=
  pySortBy (fun a b => pyLeOpt b.mills a.mills)
    ((dictValues s).filter
      (fun t => pyInStr "Target" (t.eventType.getD "") &&
        pyGeCutoff t.mills (timestamp_hours_ago now 6)))

/-- View handler `handle_temp_targets`: as `handle_meal_carbs` but for
`settings/temptargets.json`. -/
def handle_temp_targets (s : TreatmentStore) (cache : List Treatment) (now : ℚ) :
    List Treatment × Option (List Treatment × Option ℚ) :=
  let new := compute_temp_targets s now
  if new ≠ cache then (new, write_treatment_json new) else (cache, none)

/-! ## Glucose ingestion (`handle_sgvs` / `write_glucose_json`) -/

/-- A raw `sgv` record from the transport; every field the code touches.
`mills` is read both via `.get` and directly (`entry['mills']` inside the
`dateString` computation), so a record without it raises. -/
structure SgvRecord where
  mills : Option ℚ
  mgdl : Option ℚ
  direction : Option String
  device : Option String
  rssi : Option ℚ
  filtered : Option ℚ
  unfiltered : Option ℚ
  noise : Option ℚ
deriving DecidableEq, Repr

/-- A normalized glucose entry as appended to `websocket_entries`.  The
`dateString` field of the source is an ISO-8601 rendering of
`mills / MILLIS_PER_SECOND`; string formatting is outside the embedding,
so the field is modelled by the seconds value it renders. -/
structure GlucoseEntry where
  direction : Option String
  date : ℚ
  dateSeconds : ℚ
  sgv : Option ℚ
  device : Option String
  rssi : Option ℚ
  filtered : Option ℚ
  unfiltered : Option ℚ
  noise : Option ℚ
  glucose : Option ℚ
deriving DecidableEq, Repr

/-- Normalization of one raw record (the dict literal in `handle_sgvs`);
`entry['mills']` raises when absent. -/
def normalize_sgv (e : SgvRecord) : Except String GlucoseEntry := do
  let m ← getKey e.mills "KeyError: mills"
  pure
    { direction := e.direction
      date := m
      dateSeconds := m / MILLIS_PER_SECOND
      sgv := e.mgdl
      device := e.device
      rssi := e.rssi
      filtered := e.filtered
      unfiltered := e.unfiltered
      noise := e.noise
      glucose := e.mgdl }

/-- Persistence `write_glucose_json(entries)`: nothing when empty, else content plus
modification time `entries[0]['date'] / MILLIS_PER_SECOND`. -/
def write_glucose_json (entries : List GlucoseEntry) :
    Option (List GlucoseEntry × ℚ) :=
  match entries with
  | [] => none
  | e :: _ => some (entries, e.date / MILLIS_PER_SECOND)

/-- Handler `handle_sgvs(data, timestamp_1d)`: append each normalized entry to
`websocket_entries`, filter by `entry.get('date') > timestamp_1d`, sort
descending by `date`, persist.  `timestamp_1d` is
`timestamp_hours_ago(24)` computed by the caller `on_dataUpdate`.
Returns the grown in-memory sequence and the optional write effect. -/
def handle_sgvs (entries : List GlucoseEntry) (batch : List SgvRecord)
    (timestamp_1d : ℚ) :
    Except String (List GlucoseEntry × Option (List GlucoseEntry × ℚ)) := do
  let fresh ← batch.mapM normalize_sgv
  let all := entries ++ fresh
  let windowed := pySortBy (fun a b => b.date ≤ a.date)
    (all.filter (fun e => timestamp_1d < e.date))
  pure (all, write_glucose_json windowed)

/-! ## Bolus authorization handshake -/

/-- The `status['bolus']` payload: `units` and `target` are accessed
directly (raise when absent), `confirmation` via
`.get('confirmation', 0)`. -/
structure BolusReq where
  units : Option ℚ
  target : Option String
  confirmation : Option Int
deriving DecidableEq, Repr

/-- A `devicestatus` record: `device` is accessed directly once the
record is addressed to this device. -/
structure DeviceStatus where
  device : Option String
  bolus : Option BolusReq
deriving DecidableEq, Repr

/-- This device's identity, `"openaps://apstwo"` in
`handle_devicestatus` and `ack_bolus_request`. -/
def my_id : String := "openaps://apstwo"

/-- Table `pending_confirmations`: (requesting device id, nonce) ↦ amount. -/
abbrev Pending : Type := List ((String × Int) × ℚ)

/-- What one devicestatus record caused. -/
inductive BolusEffect where
  | skipped
  | bolused (amount : ℚ)
  | acked (requester : String) (nonce : Int) (amount : ℚ)
deriving DecidableEq, Repr

/-- Executor `perform_bolus(amount)`: wipes `pending_confirmations` (sets it to
the empty dict) and pipes the amount to the external pump tool. -/
def perform_bolus (_pending : Pending) (amount : ℚ) : Pending × ℚ :=
  ([], amount)

/-- Acknowledgment `ack_bolus_request(token, amount)` with its 1-second debounce taken
as settled: replaces `pending_confirmations` wholesale with
`{token: amount}` and emits the acknowledgment devicestatus carrying the
nonce. -/
def ack_bolus_request (token : String × Int) (amount : ℚ) :
    Pending × (String × Int) × ℚ :=
  ([(token, amount)], token, amount)

/-- The body of `handle_devicestatus`'s loop for one status record, with
`now` standing for `int(time())`.  Records without a `bolus` key, or
targeted at another device, are skipped. -/
def handle_bolus_status (pending : Pending) (st : DeviceStatus) (now : Int) :
    Except String (Pending × BolusEffect) :=
  match st.bolus with
  | none => Except.ok (pending, BolusEffect.skipped)
  | some b => do
    let amount ← getKey b.units "KeyError: units"
    let target ← getKey b.target "KeyError: target"
    if target ≠ my_id then
      pure (pending, BolusEffect.skipped)
    else do
      let requester ← getKey st.device "KeyError: device"
      let conf := b.confirmation.getD 0
      if dictLookup pending (requester, conf) = some amount then
        let afterDel := dictErase pending (requester, conf)
        let done := perform_bolus afterDel amount
        pure (done.1, BolusEffect.bolused done.2)
      else
        let acked := ack_bolus_request (requester, now) amount
        pure (acked.1, BolusEffect.acked acked.2.1.1 acked.2.1.2 acked.2.2)

/-! ## Local treatment ingestion (`invoke_reconcile_treatments`)

The records produced by `mm-format-ns-treatments` are dynamic JSON
objects whose string fields get type-coerced, so they are modelled as
field dictionaries over a JSON-ish value type. -/

inductive Value where
  | vNull
  | vBool (b : Bool)
  | vStr (s : String)
  | vInt (n : Int)
  | vNum (q : ℚ)
deriving DecidableEq, Repr

abbrev Record : Type := List (String × Value)

/-- Access `record.get(k)` (also `record[k]` when combined with `getKey`). -/
def recGet (r : Record) (k : String) : Option Value :=
  dictLookup r k

/-- Python `str.isdigit` on ASCII digit strings. -/
def pyIsDigit (s : String) : Bool :=
  !s.data.isEmpty && s.data.all Char.isDigit

/-- Digit characters to the number `int` parses from them. -/
def natOfDigitChars (l : List Char) : Nat :=
  l.foldl (fun n c => n * 10 + (c.toNat - 48)) 0

/-- Digit string to the number `int` parses from it. -/
def natOfDigits (s : String) : Nat :=
  natOfDigitChars s.data

/-- Python `float(s)` on the plain decimal literals
(optional sign, digits, optional point) that the device records carry;
exponents, `inf`/`nan` and surrounding whitespace are outside the
behaviour the claims exercise and parse as failures here. -/
def pyParseFloat (s : String) : Option ℚ :=
  let signed : ℚ × List Char :=
    match s.data with
    | '-' :: rest => (-1, rest)
    | '+' :: rest => (1, rest)
    | l => (1, l)
  let intPart := signed.2.takeWhile (fun c => c ≠ '.')
  match signed.2.dropWhile (fun c => c ≠ '.') with
  | [] =>
    if !intPart.isEmpty && intPart.all Char.isDigit then
      some (signed.1 * natOfDigitChars intPart)
    else none
  | _ :: fracPart =>
    if (!intPart.isEmpty || !fracPart.isEmpty) && intPart.all Char.isDigit &&
        fracPart.all Char.isDigit then
      some (signed.1 * ((natOfDigitChars intPart : ℚ) +
        (natOfDigitChars fracPart : ℚ) / 10 ^ fracPart.length))
    else none

/-- Per-field coercion: digit-only strings become `int`, other strings
become `float` on a best-effort basis (`except ValueError: pass`); all
non-string values are untouched. -/
def coerce_value (v : Value) : Value :=
  match v with
  | Value.vStr s =>
    if pyIsDigit s then Value.vInt (natOfDigits s)
    else
      match pyParseFloat s with
      | some q => Value.vNum q
      | none => Value.vStr s
  | v => v

/-- The in-place coercion loop `for key, value in treatment.items()`. -/
def coerce_record (r : Record) : Record :=
  r.map (fun kv => (kv.1, coerce_value kv.2))

/-- Python `int(value)` as applied to the (already coerced) `duration`
field: ints pass through, floats truncate toward zero, digit-only
strings (with optional sign) parse, anything else raises `ValueError`. -/
def pyIntOf (v : Value) : Except String Int :=
  match v with
  | Value.vInt n => Except.ok n
  | Value.vNum q =>
    Except.ok (if q < 0 then -(q.num.natAbs / q.den : Nat) else (q.num.natAbs / q.den : Nat))
  | Value.vBool b => Except.ok (if b then 1 else 0)
  | Value.vStr s =>
    match s.data with
    | '-' :: rest =>
      if !rest.isEmpty && rest.all Char.isDigit then
        Except.ok (-(natOfDigitChars rest : Int))
      else Except.error "ValueError"
    | _ =>
      if pyIsDigit s then Except.ok (natOfDigits s) else Except.error "ValueError"
  | Value.vNull => Except.error "TypeError"

/-- The store shared with the websocket side (`self.treatment_map` is
`websocket_treatments`), seen here with the raw key values
`(treatment['eventType'], treatment['timestamp'])` the local path uses. -/
abbrev LocalStore : Type := List ((Value × Value) × Record)

/-- The `duration` fix-up: `if treatment.get("duration") is not None:
treatment["duration"] = int(treatment["duration"])`. -/
def fix_duration (t : Record) : Except String Record :=
  match recGet t "duration" with
  | none => Except.ok t
  | some Value.vNull => Except.ok t
  | some v => do
    let n ← pyIntOf v
    pure (dictInsert t "duration" (Value.vInt n))

/-- The body of `invoke_reconcile_treatments`'s loop for one record of
the tool output: accumulator is (store, records emitted so far).  The
key `(treatment['eventType'], treatment['timestamp'])` is read with
raising accesses; when it is absent from the store the record is
coerced, its `duration` integerised, and emitted; the store itself is
never written. -/
def reconcile_step (acc : LocalStore × List Record) (t : Record) :
    Except String (LocalStore × List Record) := do
  let et ← getKey (recGet t "eventType") "KeyError: eventType"
  let ts ← getKey (recGet t "timestamp") "KeyError: timestamp"
  if (dictLookup acc.1 (et, ts)).isSome then
    pure acc
  else do
    let fixed ← fix_duration (coerce_record t)
    pure (acc.1, acc.2 ++ [fixed])

/-- Ingestion `invoke_reconcile_treatments` over the parsed tool output.  Returns
the (unchanged) store and the list of records emitted as `dbAdd`
treatment-added events. -/
def invoke_reconcile_treatments (m : LocalStore) (records : List Record) :
    Except String (LocalStore × List Record) :=
  records.foldlM reconcile_step (m, [])

/-! ## Helper lemmas -/

lemma foldlM_except_singleton {α β : Type} (f : β → α → Except String β) (b : β) (a : α) :
    List.foldlM f b [a] = f b a := by
  cases h : f b a <;> simp [List.foldlM, h]

lemma dictLookup_eq_none_iff {κ α : Type} [DecidableEq κ] (m : List (κ × α)) (k : κ) :
    dictLookup m k = none ↔ k ∉ m.map Prod.fst := by
  induction m with
  | nil => simp [dictLookup]
  | cons p rest ih =>
    obtain ⟨k', v⟩ := p
    by_cases h : k' = k
    · subst h
      simp [dictLookup]
    · simp [dictLookup, h, ih]
      tauto

lemma dictErase_sublist {κ α : Type} [DecidableEq κ] (m : List (κ × α)) (k : κ) :
    List.Sublist (dictErase m k) m := by
  induction m with
  | nil => simp [dictErase]
  | cons p rest ih =>
    obtain ⟨k', v⟩ := p
    by_cases h : k' = k
    · simp [dictErase, h]
    · simpa [dictErase, h] using ih.cons₂ (k', v)

lemma dictLookup_dictErase_self {κ α : Type} [DecidableEq κ] (m : List (κ × α)) (k : κ)
    (h : (m.map Prod.fst).Nodup) : dictLookup (dictErase m k) k = none := by
  induction m with
  | nil => simp [dictErase, dictLookup]
  | cons p rest ih =>
    obtain ⟨k', v⟩ := p
    simp only [List.map_cons, List.nodup_cons] at h
    by_cases hk : k' = k
    · subst hk
      rw [dictErase, if_pos rfl, dictLookup_eq_none_iff]
      exact h.1
    · rw [dictErase, if_neg hk, dictLookup, if_neg hk]
      exact ih h.2

lemma dictLookup_dictErase_of_none {κ α : Type} [DecidableEq κ] (m : List (κ × α))
    (k k' : κ) (h : dictLookup m k = none) : dictLookup (dictErase m k') k = none := by
  rw [dictLookup_eq_none_iff] at h ⊢
  intro hmem
  exact h (((dictErase_sublist m k').map Prod.fst).mem hmem)

lemma dictErase_keys_nodup {κ α : Type} [DecidableEq κ] (m : List (κ × α)) (k : κ)
    (h : (m.map Prod.fst).Nodup) : ((dictErase m k).map Prod.fst).Nodup :=
  h.sublist ((dictErase_sublist m k).map Prod.fst)

lemma write_treatment_json_ne_none_iff (ts : List Treatment) :
    write_treatment_json ts ≠ none ↔ ts ≠ [] := by
  cases ts <;> simp [write_treatment_json]

lemma throttle_run_of_t_none (wait : ℚ) :
    ∀ (times : List ℚ) (s : ThrottleState), s.t = none →
      throttle_run wait s times = times.length := by
  intro times
  induction times with
  | nil => intro s h; simp [throttle_run, h]
  | cons now rest ih =>
    intro s h
    rw [throttle_run]
    have hfire : throttle_fire s now = (s, 0) := by rw [throttle_fire, h]
    have hcall : throttled_call wait s now = (⟨s.t, some now⟩, true) := by
      rw [throttled_call, h]
    rw [hfire]
    simp only [hcall]
    rw [ih ⟨s.t, some now⟩ h]
    simp [List.length_cons]
    omega

/-! ## Claim theorems -/

/-- C3: the spec claims the throttle wrapper runs its action at most once
per `interval` with leading-edge cold start and trailing-edge coalescing,
and that continuous invocation for `D > interval` yields
`floor(D/interval) + 1` executions.  The code contradicts its own
docstring: `throttled.t` is assigned only under a successful
`throttled.t.cancel()`, which needs `t` to already exist, so every
invocation lands in the `AttributeError` arm and executes immediately.
Two invocations 1 second apart under a 15-second interval both execute,
and in general every invocation of a cold-started wrapper executes. -/
theorem throttle_executes_every_call :
    throttle_run 15 ThrottleState.initial [0, 1] = 2 ∧ (1 : ℚ) < 0 + 15 ∧
    ∀ times : List ℚ, throttle_run 15 ThrottleState.initial times = times.length := by
  refine ⟨by decide, by norm_num, ?_⟩
  intro times
  exact throttle_run_of_t_none 15 times ThrottleState.initial rfl

/-- C7 counterexample: the claim says an inbound event during cycle 3
forces seven further idle cycles before termination; in the code the
event-containing cycle itself still executes `wait_count += 1`, so six
further idle cycles (nine cycles in total) already terminate the
session. -/
theorem liveness_six_more_idle_cycles_exit :
    liveness_cycles_to_exit 0 ([false, false, true] ++ List.replicate 6 false) = some 9 := by
  decide

/-- C7 amended: starting from 0, seven consecutive idle cycles (and not
six) terminate the session; an inbound event during cycle 3 resets the
counter to 0, but that cycle still increments it to 1 at its end, so six
further idle cycles — nine cycles in total, not ten — terminate, and five
further idle cycles do not. -/
theorem liveness_counter_scenarios :
    liveness_cycles_to_exit 0 (List.replicate 7 false) = some 7 ∧
    liveness_cycles_to_exit 0 (List.replicate 6 false) = none ∧
    liveness_cycles_to_exit 0 ([false, false, true] ++ List.replicate 6 false) = some 9 ∧
    liveness_cycles_to_exit 0 ([false, false, true] ++ List.replicate 5 false) = none := by
  refine ⟨by decide, by decide, by decide, by decide⟩

/-- C8 counterexample: the claim says every error notification increments
the counter by 8 so the next threshold check exceeds 7; `on_error` leaves
the counter untouched, so from 0 it stays 0 and does not exceed the
threshold. -/
theorem on_error_leaves_counter :
    (on_error 0).1 = 0 ∧ ¬ 7 < (on_error 0).1 := by
  decide

/-- C8 amended: `on_disconnect` increments the counter by 8, so whatever
its prior value the next threshold check exceeds 7, and it terminates the
session immediately; `on_error` terminates the session immediately
without touching the counter. -/
theorem disconnect_bumps_error_exits :
    ∀ w : Nat, on_disconnect w = (w + 8, true) ∧ 7 < (on_disconnect w).1 ∧
      on_error w = (w, true) := by
  intro w
  refine ⟨rfl, ?_, rfl⟩
  simp [on_disconnect]

lemma handle_meal_carbs_fst (s : TreatmentStore) (cache : List Treatment) (now : ℚ) :
    (handle_meal_carbs s cache now).1 = compute_meal_carbs s now := by
  unfold handle_meal_carbs
  dsimp only
  split
  · rfl
  · next h =>
    simpa using (not_ne_iff.mp h)

lemma handle_temp_targets_fst (s : TreatmentStore) (cache : List Treatment) (now : ℚ) :
    (handle_temp_targets s cache now).1 = compute_temp_targets s now := by
  unfold handle_temp_targets
  dsimp only
  split
  · rfl
  · next h =>
    simpa using (not_ne_iff.mp h).symm

/-- C9 counterexample: two consecutive recomputations of the meal-carbs
view on an empty store yield value-equal (empty) views, yet zero
persistence writes occur, not exactly one. -/
theorem equal_empty_recomputations_zero_writes :
    compute_meal_carbs [] 0 = [] ∧
    (handle_meal_carbs [] [] 0).2 = none ∧
    (handle_meal_carbs [] (handle_meal_carbs [] [] 0).1 0).2 = none := by
  decide

/-- C9 amended: of two consecutive recomputations yielding value-equal
views the second never writes (so the pair triggers at most one write),
and a recomputation writes exactly when the view differs from the cached
last-computed view and is nonempty.  (The cache equals the last-persisted
value except when an empty recomputation updated the cache without
writing, see C10.) -/
theorem persistence_gate_amended :
    ∀ (s : TreatmentStore) (cache : List Treatment) (now : ℚ),
      (handle_meal_carbs s (handle_meal_carbs s cache now).1 now).2 = none ∧
      ((handle_meal_carbs s cache now).2 ≠ none ↔
        compute_meal_carbs s now ≠ cache ∧ compute_meal_carbs s now ≠ []) ∧
      (handle_temp_targets s (handle_temp_targets s cache now).1 now).2 = none ∧
      ((handle_temp_targets s cache now).2 ≠ none ↔
        compute_temp_targets s now ≠ cache ∧ compute_temp_targets s now ≠ []) := by
  intro s cache now
  refine ⟨?_, ?_, ?_, ?_⟩
  · rw [handle_meal_carbs_fst]
    unfold handle_meal_carbs
    simp
  · unfold handle_meal_carbs
    dsimp only
    split
    · next h =>
      rw [write_treatment_json_ne_none_iff]
      exact ⟨fun hne => ⟨fun hc => h hc.symm, hne⟩, fun hp => hp.2⟩
    · next h =>
      have := not_ne_iff.mp h
      simp [this]
  · rw [handle_temp_targets_fst]
    unfold handle_temp_targets
    simp
  · unfold handle_temp_targets
    dsimp only
    split
    · next h =>
      rw [write_treatment_json_ne_none_iff]
      exact ⟨fun hne => ⟨h, hne⟩, fun hp => hp.2⟩
    · next h =>
      have := not_ne_iff.mp h
      simp [this]

/-- C10: an empty recomputed derived view or glucose window is never
persisted — the write helpers skip empty lists entirely, so no content
write and no modification-time tagging happen — while the in-memory
cached view is still replaced by the empty list. -/
theorem empty_view_not_persisted :
    write_glucose_json [] = none ∧ write_treatment_json [] = none ∧
    (∀ (s : TreatmentStore) (cache : List Treatment) (now : ℚ),
      compute_meal_carbs s now = [] → handle_meal_carbs s cache now = ([], none)) ∧
    (∀ (s : TreatmentStore) (cache : List Treatment) (now : ℚ),
      compute_temp_targets s now = [] → handle_temp_targets s cache now = ([], none)) := by
  refine ⟨rfl, rfl, ?_, ?_⟩
  · intro s cache now h
    unfold handle_meal_carbs
    dsimp only
    rw [h]
    split
    · rfl
    · next hc =>
      rw [not_ne_iff.mp hc]
  · intro s cache now h
    unfold handle_temp_targets
    dsimp only
    rw [h]
    split
    · rfl
    · next hc =>
      rw [← not_ne_iff.mp hc]

/-- C4: the spec claims the persisted glucose artifact holds exactly the
entries of the last 24 hours.  `timestamp_hours_ago` subtracts a
*milliseconds* interval from the *seconds*-valued `time()`, so the cutoff
compared against millisecond `date` stamps is far too low: an entry about
ten years older than the reference time (date 1385000000000 ms vs now
1700000000 s) still passes the window filter and is persisted, although
its timestamp is well below `(now - 24h) * 1000`. -/
theorem glucose_window_keeps_stale_entry :
    handle_sgvs [] [⟨some 1385000000000, some 100, none, none, none, none, none, none⟩]
        (timestamp_hours_ago 1700000000 24)
      = Except.ok
          ([⟨none, 1385000000000, 1385000000, some 100, none, none, none, none, none,
              some 100⟩],
            some ([⟨none, 1385000000000, 1385000000, some 100, none, none, none, none, none,
              some 100⟩], 1385000000)) ∧
    (1385000000000 : ℚ) < (1700000000 - 24 * 60 * 60) * MILLIS_PER_SECOND := by
  constructor
  · have h1 : (1613600000 : ℚ) < 1385000000000 := by norm_num
    have h2 : (1385000000000 : ℚ) / 1000 = 1385000000 := by norm_num
    simp only [handle_sgvs, normalize_sgv, getKey, List.mapM_cons, List.mapM_nil, pySortBy,
      List.foldl, stableInsert, write_glucose_json, timestamp_hours_ago, MILLIS_PER_SECOND]
    norm_num [Bind.bind, Except.bind, pure, Except.pure, List.filter, stableInsert, h1, h2]
  · norm_num [MILLIS_PER_SECOND]

lemma collect_removed_eq (x : String) :
    ∀ (vals acc : List Treatment), (∀ v ∈ vals, (v._id).isSome = true) →
      List.foldlM (collect_step x) acc vals
        = Except.ok (acc ++ vals.filter (fun v => v._id = some x)) := by
  intro vals
  induction vals with
  | nil => intro acc _; simp [List.foldlM, pure, Except.pure]
  | cons v rest ih =>
    intro acc h
    obtain ⟨i, hi⟩ := Option.isSome_iff_exists.mp (h v (by simp))
    have hstep : collect_step x acc v
        = Except.ok (if i = x then acc ++ [v] else acc) := by
      simp [collect_step, getKey, hi, pure, Except.pure, Bind.bind, Except.bind]
    rw [List.foldlM_cons, hstep]
    show List.foldlM (collect_step x) (if i = x then acc ++ [v] else acc) rest = _
    rw [ih _ (fun w hw => h w (by simp [hw]))]
    by_cases hix : i = x
    · simp [hix, hi, List.filter_cons]
    · have : ¬ v._id = some x := by simp [hi, hix]
      simp [hix, List.filter_cons, this]

lemma erase_removed_preserves_none :
    ∀ (l : List Treatment) (s0 : TreatmentStore) (ts : Option ℚ) (k : TKey)
      (res : TreatmentStore), erase_removed ts l s0 = Except.ok res →
      dictLookup s0 k = none → dictLookup res k = none := by
  intro l
  induction l with
  | nil =>
    intro s0 ts k res hrun h0
    simp [erase_removed, List.foldlM, pure, Except.pure] at hrun
    exact hrun ▸ h0
  | cons r rest ih =>
    intro s0 ts k res hrun h0
    rw [erase_removed, List.foldlM_cons] at hrun
    cases het : r.eventType with
    | none => simp [erase_step, getKey, het, Bind.bind, Except.bind] at hrun
    | some et =>
      have hstep : erase_step ts s0 r = Except.ok (dictErase s0 (et, ts)) := by
        simp [erase_step, getKey, het, pure, Except.pure, Bind.bind, Except.bind]
      rw [hstep] at hrun
      exact ih _ ts k res hrun (dictLookup_dictErase_of_none _ _ _ h0)

lemma erase_removed_absent :
    ∀ (l : List Treatment) (s0 : TreatmentStore) (ts : Option ℚ) (k : TKey)
      (res : TreatmentStore),
      (s0.map Prod.fst).Nodup →
      erase_removed ts l s0 = Except.ok res →
      (∃ r ∈ l, r.eventType = some k.1) → ts = k.2 →
      dictLookup res k = none := by
  intro l
  induction l with
  | nil =>
    intro s0 ts k res _ _ hex _
    simp at hex
  | cons r rest ih =>
    intro s0 ts k res hnd hrun hex hts
    rw [erase_removed, List.foldlM_cons] at hrun
    cases het : r.eventType with
    | none => simp [erase_step, getKey, het, Bind.bind, Except.bind] at hrun
    | some et =>
      have hstep : erase_step ts s0 r = Except.ok (dictErase s0 (et, ts)) := by
        simp [erase_step, getKey, het, pure, Except.pure, Bind.bind, Except.bind]
      rw [hstep] at hrun
      obtain ⟨w, hw, hwet⟩ := hex
      rcases List.mem_cons.mp hw with hwr | hwrest
      · subst hwr
        have hkey : (et, ts) = k := by
          rw [het] at hwet
          obtain ⟨k1, k2⟩ := k
          simp at hwet hts ⊢
          exact ⟨hwet, hts⟩
        exact erase_removed_preserves_none rest _ ts k res hrun
          (hkey ▸ dictLookup_dictErase_self s0 (et, ts) hnd)
      · exact ih _ ts k res (dictErase_keys_nodup s0 (et, ts) hnd) hrun
          ⟨w, hwrest, hwet⟩ hts

/-- C2 counterexample: a treatment with `_id = "abc"` is inserted under
key `("Carb Correction", 1000)`; a remove record with the same `_id` but
timestamp 2000 deletes nothing — the `del` targets key
`("Carb Correction", 2000)`, the `KeyError` is swallowed, and the
treatment with `_id = "abc"` remains in the store. -/
theorem remove_timestamp_mismatch_leaves_treatment :
    handle_treatments []
        [⟨some "Carb Correction", some 1000, none, some "abc", none, some 20, none, some 1000⟩]
      = Except.ok [(("Carb Correction", some 1000),
          ⟨some "Carb Correction", some 1000, none, some "abc", none, some 20, none,
            some 1000⟩)] ∧
    handle_treatments
        [(("Carb Correction", some 1000),
          ⟨some "Carb Correction", some 1000, none, some "abc", none, some 20, none,
            some 1000⟩)]
        [⟨some "Carb Correction", some 2000, none, some "abc", some "remove", none, none, none⟩]
      = Except.ok [(("Carb Correction", some 1000),
          ⟨some "Carb Correction", some 1000, none, some "abc", none, some 20, none,
            some 1000⟩)] := by
  constructor
  · rfl
  · rfl

/-- C2 amended: ingesting a remove-action treatment with `_id = X`
removes a stored treatment with the same `_id` only when the stored
entry's key timestamp equals the remove record's timestamp (or
`created_at` fallback); under that condition the entry is gone, while a
stored treatment whose key timestamp differs survives (see the
counterexample).  The store is assumed well-formed: keys are distinct,
each value's `eventType` matches its key, and every stored value carries
an `_id`, as entries created by `handle_treatments` inserts do. -/
theorem remove_matches_id_and_timestamp :
    ∀ (s s' : TreatmentStore) (rem : Treatment) (x : String) (k : TKey),
      (s.map Prod.fst).Nodup →
      (∀ p ∈ s, p.2.eventType = some p.1.1 ∧ (p.2)._id.isSome = true) →
      rem.action = some "remove" → rem._id = some x →
      handle_treatments s [rem] = Except.ok s' →
      (∃ p ∈ s, p.1 = k ∧ (p.2)._id = some x) →
      k.2 = tsKey rem →
      dictLookup s' k = none := by
  intro s s' rem x k hnd hwf haction hid hrun hex hts
  rw [handle_treatments, foldlM_except_singleton, handle_one_treatment,
    if_pos haction, hid] at hrun
  have hids : ∀ v ∈ dictValues s, (v._id).isSome = true := by
    intro v hv
    obtain ⟨p, hp, hpv⟩ := List.mem_map.mp hv
    exact hpv ▸ (hwf p hp).2
  rw [show getKey (some x) "KeyError: _id" = Except.ok x from rfl] at hrun
  simp only [Bind.bind, Except.bind] at hrun
  rw [collect_removed, collect_removed_eq x (dictValues s) [] hids] at hrun
  obtain ⟨p, hp, hpk, hpid⟩ := hex
  refine erase_removed_absent _ s (tsKey rem) k s' hnd hrun ⟨p.2, ?_, ?_⟩ hts.symm
  · rw [List.nil_append]
    refine List.mem_filter.mpr ⟨List.mem_map.mpr ⟨p, hp, rfl⟩, by simp [hpid]⟩
  · rw [(hwf p hp).1, hpk]

/-- C2 witness: the amended removal theorem at a store holding one
treatment with `_id = "abc"` and a remove record whose timestamp matches
the stored key. -/
theorem remove_matches_id_and_timestamp_witness :
    dictLookup [(("Carb Correction", some 1000),
        (⟨some "Carb Correction", some 1000, none, some "abc", none, some 20, none,
          some 1000⟩ : Treatment))]
      ("Carb Correction", some 1000) ≠ none ∧
    dictLookup ([] : TreatmentStore) ("Carb Correction", some 1000) = none :=
  ⟨by decide,
    remove_matches_id_and_timestamp
      [(("Carb Correction", some 1000),
        ⟨some "Carb Correction", some 1000, none, some "abc", none, some 20, none, some 1000⟩)]
      []
      ⟨some "Carb Correction", some 1000, none, some "abc", some "remove", none, none, none⟩
      "abc" ("Carb Correction", some 1000)
      (by decide) (by decide) (by decide) (by decide) (by rfl)
      ⟨(("Carb Correction", some 1000),
        ⟨some "Carb Correction", some 1000, none, some "abc", none, some 20, none, some 1000⟩),
        by simp, rfl, rfl⟩ (by decide)⟩

lemma reconcile_step_fst :
    ∀ (acc : LocalStore × List Record) (t : Record) (res : LocalStore × List Record),
      reconcile_step acc t = Except.ok res → res.1 = acc.1 := by
  intro acc t res h
  rw [reconcile_step] at h
  cases het : recGet t "eventType" with
  | none => simp [getKey, het, Bind.bind, Except.bind] at h
  | some et =>
    cases hts : recGet t "timestamp" with
    | none => simp [getKey, het, hts, Bind.bind, Except.bind] at h
    | some ts =>
      simp only [getKey, het, hts, Bind.bind, Except.bind] at h
      split at h
      · simp [pure, Except.pure] at h
        exact h ▸ rfl
      · cases hfix : fix_duration (coerce_record t) with
        | error msg => simp [hfix, Bind.bind, Except.bind] at h
        | ok fixed =>
          simp [hfix, Bind.bind, Except.bind, pure, Except.pure] at h
          exact h ▸ rfl

lemma reconcile_fold_fst :
    ∀ (records : List Record) (acc res : LocalStore × List Record),
      List.foldlM reconcile_step acc records = Except.ok res → res.1 = acc.1 := by
  intro records
  induction records with
  | nil =>
    intro acc res h
    simp [List.foldlM, pure, Except.pure] at h
    exact h ▸ rfl
  | cons a rest ih =>
    intro acc res h
    rw [List.foldlM_cons] at h
    cases h1 : reconcile_step acc a with
    | error msg => simp [h1, Bind.bind, Except.bind] at h
    | ok acc1 =>
      rw [h1] at h
      simp only [Bind.bind, Except.bind] at h
      exact (ih acc1 res h).trans (reconcile_step_fst acc a acc1 h1)

/-- C5 counterexample: ingesting a formatted local record whose key is
absent from the store emits the record but leaves the store untouched —
after the run the store still does not contain the record's key, contrary
to the claim that the record is upserted into the store. -/
theorem local_ingest_does_not_update_store :
    invoke_reconcile_treatments []
        [[("eventType", Value.vStr "Temp Basal"),
          ("timestamp", Value.vStr "2017-01-01T00:00:00")]]
      = Except.ok ([],
          [[("eventType", Value.vStr "Temp Basal"),
            ("timestamp", Value.vStr "2017-01-01T00:00:00")]]) ∧
    dictLookup ([] : LocalStore)
        (Value.vStr "Temp Basal", Value.vStr "2017-01-01T00:00:00") = none := by
  constructor
  · rfl
  · rfl

/-- C5 amended: local ingestion never writes the treatment store (for
any successful run the resulting store is the input store); a record
whose `(eventType, timestamp)` key is already present is not emitted;
a record whose key is absent is type-coerced and emitted as a
treatment-added event — but it reaches the store only later, when the
cloud echoes it back. -/
theorem local_ingest_amended :
    (∀ (m : LocalStore) (records : List Record) (res : LocalStore × List Record),
      invoke_reconcile_treatments m records = Except.ok res → res.1 = m) ∧
    (∀ (m : LocalStore) (t : Record) (et ts : Value),
      recGet t "eventType" = some et → recGet t "timestamp" = some ts →
      (dictLookup m (et, ts)).isSome = true →
      invoke_reconcile_treatments m [t] = Except.ok (m, [])) ∧
    (∀ (m : LocalStore) (t : Record) (et ts : Value) (fixed : Record),
      recGet t "eventType" = some et → recGet t "timestamp" = some ts →
      dictLookup m (et, ts) = none → fix_duration (coerce_record t) = Except.ok fixed →
      invoke_reconcile_treatments m [t] = Except.ok (m, [fixed])) := by
  refine ⟨?_, ?_, ?_⟩
  · intro m records res h
    exact reconcile_fold_fst records (m, []) res h
  · intro m t et ts het hts hlook
    rw [invoke_reconcile_treatments, foldlM_except_singleton, reconcile_step]
    simp [getKey, het, hts, hlook, Bind.bind, Except.bind, pure, Except.pure]
  · intro m t et ts fixed het hts hlook hfix
    rw [invoke_reconcile_treatments, foldlM_except_singleton, reconcile_step]
    simp [getKey, het, hts, hlook, hfix, Bind.bind, Except.bind, pure, Except.pure]

/-- C5 witness: the amended theorem's present-key arm (no emission) and
absent-key arm (coerce and emit) at concrete records. -/
theorem local_ingest_amended_witness :
    invoke_reconcile_treatments [((Value.vStr "A", Value.vInt 1), [])]
        [[("eventType", Value.vStr "A"), ("timestamp", Value.vInt 1)]]
      = Except.ok ([((Value.vStr "A", Value.vInt 1), [])], []) ∧
    invoke_reconcile_treatments []
        [[("eventType", Value.vStr "A"), ("timestamp", Value.vInt 1)]]
      = Except.ok ([], [[("eventType", Value.vStr "A"), ("timestamp", Value.vInt 1)]]) :=
  ⟨local_ingest_amended.2.1 [((Value.vStr "A", Value.vInt 1), [])]
      [("eventType", Value.vStr "A"), ("timestamp", Value.vInt 1)]
      (Value.vStr "A") (Value.vInt 1) rfl rfl (by decide),
    local_ingest_amended.2.2 []
      [("eventType", Value.vStr "A"), ("timestamp", Value.vInt 1)]
      (Value.vStr "A") (Value.vInt 1)
      [("eventType", Value.vStr "A"), ("timestamp", Value.vInt 1)]
      rfl rfl rfl rfl⟩

lemma mapM_normalize_error :
    ∀ (batch : List SgvRecord), (∃ e ∈ batch, e.mills = none) →
      ∃ msg, List.mapM normalize_sgv batch = Except.error msg := by
  intro batch
  induction batch with
  | nil => intro hex; simp at hex
  | cons a rest ih =>
    intro hex
    cases ha : a.mills with
    | none =>
      refine ⟨"KeyError: mills", ?_⟩
      rw [List.mapM_cons]
      simp [normalize_sgv, getKey, ha, Bind.bind, Except.bind]
    | some m =>
      obtain ⟨e, he, hemills⟩ := hex
      rcases List.mem_cons.mp he with hea | herest
      · rw [hea] at hemills; rw [ha] at hemills; cases hemills
      · obtain ⟨msg, hmsg⟩ := ih ⟨e, herest, hemills⟩
        refine ⟨msg, ?_⟩
        simp only [List.mapM_cons, hmsg, normalize_sgv, getKey, ha, Bind.bind, Except.bind,
          pure, Except.pure]

/-- C6 counterexample: a sgv batch whose first record lacks `mills`
aborts with a `KeyError` before the following well-formed record is
processed; `on_dataUpdate` catches the exception and exits the whole
session, so one bad record does crash the batch. -/
theorem missing_mills_aborts_batch :
    handle_sgvs []
        [⟨none, some 50, none, none, none, none, none, none⟩,
          ⟨some 1000, some 120, none, none, none, none, none, none⟩] 0
      = Except.error "KeyError: mills" := by
  rfl

/-- C6 amended: optional fields are read with best-effort `.get`
defaults, but some fields are accessed raising: any sgv record without
`mills` and any non-remove treatment without `eventType` make the whole
batch handler raise, so the remaining records of the batch are not
processed and the session terminates (`on_dataUpdate` catches the
exception and calls `sys.exit()`). -/
theorem required_key_missing_aborts :
    (∀ (entries : List GlucoseEntry) (batch : List SgvRecord) (t1 : ℚ) (e : SgvRecord),
      e ∈ batch → e.mills = none →
      ∃ msg, handle_sgvs entries batch t1 = Except.error msg) ∧
    (∀ (s : TreatmentStore) (batch : List Treatment) (t : Treatment),
      t ∈ batch → ¬ t.action = some "remove" → t.eventType = none →
      ∃ msg, handle_treatments s batch = Except.error msg) := by
  constructor
  · intro entries batch t1 e he hemills
    obtain ⟨msg, hmsg⟩ := mapM_normalize_error batch ⟨e, he, hemills⟩
    refine ⟨msg, ?_⟩
    rw [handle_sgvs]
    simp only [hmsg, Bind.bind, Except.bind]
  · intro s batch
    induction batch generalizing s with
    | nil => intro t ht _ _; simp at ht
    | cons a rest ih =>
      intro t ht haction het
      rw [handle_treatments, List.foldlM_cons]
      cases h1 : handle_one_treatment s a with
      | error msg => exact ⟨msg, by simp [h1, Bind.bind, Except.bind]⟩
      | ok s1 =>
        rcases List.mem_cons.mp ht with hta | htrest
        · rw [← hta] at h1
          rw [handle_one_treatment, if_neg haction, het] at h1
          simp [getKey, Bind.bind, Except.bind] at h1
        · obtain ⟨msg, hmsg⟩ := ih s1 t htrest haction het
          rw [handle_treatments] at hmsg
          exact ⟨msg, by simp [h1, Bind.bind, Except.bind, hmsg]⟩

/-- C6 witness: the amended abort theorem at a concrete one-record
batch lacking the required key in each handler. -/
theorem required_key_missing_aborts_witness :
    (∃ msg, handle_sgvs [] [⟨none, some 50, none, none, none, none, none, none⟩] 0
      = Except.error msg) ∧
    (∃ msg, handle_treatments []
        [⟨none, some 1, none, none, none, some 20, none, some 1⟩]
      = Except.error msg) :=
  ⟨required_key_missing_aborts.1 [] [⟨none, some 50, none, none, none, none, none, none⟩] 0
      ⟨none, some 50, none, none, none, none, none, none⟩ (by simp) rfl,
    required_key_missing_aborts.2 []
      [⟨none, some 1, none, none, none, some 20, none, some 1⟩]
      ⟨none, some 1, none, none, none, some 20, none, some 1⟩ (by simp) (by decide) rfl⟩

/-- C1 counterexample: a resend whose nonce matches the pending entry
but whose amount differs (pending amount 2, resend amount 3) executes no
bolus, yet does not leave `pending_confirmations` unchanged: the
handler treats it as a fresh request and (after the debounced
acknowledgment) replaces the table with a new entry keyed by a fresh
nonce. -/
theorem bolus_resend_diff_amount_replaces_pending :
    handle_bolus_status [(("openaps://apsone", 5), 2)]
        ⟨some "openaps://apsone", some ⟨some 3, some "openaps://apstwo", some 5⟩⟩ 100
      = Except.ok ([(("openaps://apsone", 100), 3)],
          BolusEffect.acked "openaps://apsone" 100 3) ∧
    [(("openaps://apsone", 100), 3)] ≠ [(("openaps://apsone", 5), 2)] := by
  constructor
  · rfl
  · decide

/-- C1 amended: for a bolus devicestatus addressed to this device, when
`pending_confirmations` maps (requester, nonce) to the requested amount
the entry is deleted (the table is wiped) and the bolus executes, and
replaying the same record afterwards executes no second bolus; when the
table does not map that key to that amount no bolus executes and —
contrary to the claim's "left unchanged" — the table is replaced with a
single fresh entry `(requester, new nonce) ↦ amount` once the debounced
acknowledgment fires. -/
theorem bolus_handshake_amended :
    ∀ (pending : Pending) (req : String) (amt : ℚ) (conf now : Int),
      (dictLookup pending (req, conf) = some amt →
        handle_bolus_status pending ⟨some req, some ⟨some amt, some my_id, some conf⟩⟩ now
          = Except.ok ([], BolusEffect.bolused amt) ∧
        handle_bolus_status [] ⟨some req, some ⟨some amt, some my_id, some conf⟩⟩ now
          = Except.ok ([((req, now), amt)], BolusEffect.acked req now amt)) ∧
      (dictLookup pending (req, conf) ≠ some amt →
        handle_bolus_status pending ⟨some req, some ⟨some amt, some my_id, some conf⟩⟩ now
          = Except.ok ([((req, now), amt)], BolusEffect.acked req now amt)) := by
  intro pending req amt conf now
  constructor
  · intro h
    constructor
    · simp [handle_bolus_status, getKey, h, perform_bolus, Bind.bind, Except.bind, pure,
        Except.pure]
    · simp [handle_bolus_status, getKey, dictLookup, ack_bolus_request, Bind.bind, Except.bind,
        pure, Except.pure]
  · intro h
    simp [handle_bolus_status, getKey, h, ack_bolus_request, Bind.bind, Except.bind, pure,
      Except.pure]

/-- C1 witness: both arms of the amended handshake theorem at a concrete
pending table. -/
theorem bolus_handshake_amended_witness :
    handle_bolus_status [(("openaps://apsone", 5), 2)]
        ⟨some "openaps://apsone", some ⟨some 2, some my_id, some 5⟩⟩ 100
      = Except.ok ([], BolusEffect.bolused 2) ∧
    handle_bolus_status [(("openaps://apsone", 5), 2)]
        ⟨some "openaps://apsone", some ⟨some 3, some my_id, some 5⟩⟩ 100
      = Except.ok ([(("openaps://apsone", 100), 3)],
          BolusEffect.acked "openaps://apsone" 100 3) :=
  ⟨((bolus_handshake_amended [(("openaps://apsone", 5), 2)] "openaps://apsone" 2 5 100).1
      (by decide)).1,
    (bolus_handshake_amended [(("openaps://apsone", 5), 2)] "openaps://apsone" 3 5 100).2
      (by decide)⟩

/-- C10 witness: a store whose meal-carbs view recomputes to the empty
list while the cache holds a stale treatment — the cache becomes `[]` and
nothing is written. -/
theorem empty_view_not_persisted_witness :
    handle_meal_carbs [] [⟨some "Meal Bolus", some 1, none, none, none, some 20, none, some 1⟩] 0
      = ([], none) :=
  empty_view_not_persisted.2.2.1 []
    [⟨some "Meal Bolus", some 1, none, none, none, some 20, none, some 1⟩] 0 rfl

end Siobg
